import Mathlib

/-!
Shallow embedding of the tvheadend DVB-S/S2 blindscan pipeline
(src/unnamed/part_001) and verification of the frozen claims.

The embedding follows the C source function by function:
* `blindscan_detect_peaks` (lines 604-753): software peak detector
  (threshold, local-maximum sweep, valley-based merge, -6 dB symbol-rate
  estimate).  Machine integers: `uint32_t` arithmetic that can wrap is
  modelled with explicit `% 2^32`; `int32_t` levels are modelled as `Int`
  (all level arithmetic in the source stays far from overflow).
* the worker of `blindscan_worker` (lines 1452-1783): band/polarisation
  slot planning, progress updates, peak insertion (`LIST_INSERT_HEAD`),
  and the hardware-candidate deduplication loop (lines 1664-1693).
* `linuxdvb_blindscan_peaks` (lines 2049-2067): report order.
* `linuxdvb_blindscan_prescan` (lines 2577-2837): symbol-rate estimate
  lookup, `DTV_SEARCH_RANGE` computation, stream-id decoding and
  MATYPE/GSE classification.

Loops whose C termination measure is an index bounded by the buffer size
are written with an explicit fuel argument instantiated to that bound, so
that every definition reduces by `decide`/`rfl`; the fuel is always large
enough that the fuel-exhaustion branch is never taken on the loop's
actual domain.
-/

namespace Blindscan

/-- One spectrum sample: `blindscan_spectrum_point_t` (frequency in kHz as
`uint32_t`, level in 0.01 dB as `int32_t`). -/
structure SpectrumPoint where
  frequency : Nat
  level : Int
  deriving DecidableEq, Repr

/-- A candidate/driver peak: `blindscan_spectral_peak_t`
(frequency kHz, symbol rate in symbols/s, SNR, level). -/
structure SpectralPeak where
  frequency : Nat
  symbol_rate : Nat
  snr : Int
  level : Int
  deriving DecidableEq, Repr

/-- Internal sweep candidate: the `candidate_t` pair `{ size_t idx; int32_t level; }`
of `blindscan_detect_peaks`. -/
structure Cand where
  idx : Nat
  level : Int
  deriving DecidableEq, Repr

/-- Level of sample `i`; in the C code every access `sd->points[i].level`
is in range, so the default value is never used on the source's domain. -/
def lvlAt (pts : List SpectrumPoint) (i : Nat) : Int :=
  ((pts.get? i).map (fun p => p.level)).getD 0

/-- Frequency of sample `i` (same in-range remark as `lvlAt`). -/
def freqAt (pts : List SpectrumPoint) (i : Nat) : Nat :=
  ((pts.get? i).map (fun p => p.frequency)).getD 0

/-- Step 1 of `blindscan_detect_peaks` (lines 615-619): minimum level,
seeded with `points[0].level`.  (The maximum computed alongside is only
used in a debug log and is not modelled.) -/
def minLevel (pts : List SpectrumPoint) : Int :=
  match pts with
  | [] => 0
  | p :: rest => rest.foldl (fun m q => min m q.level) p.level

/-- The window test of lines 642-646: sample `i` (with level `lvl`) is a
local maximum iff no other sample in the window `[i-10, i+10]` exceeds it.
Only called with `10 ≤ i`, so `i - 10 + d` enumerates exactly the window. -/
def isLocalMax (pts : List SpectrumPoint) (i : Nat) (lvl : Int) : Bool :=
  (List.range 21).all (fun d => i - 10 + d == i || lvlAt pts (i - 10 + d) ≤ lvl)

/-- The candidate sweep loop of lines 636-653: scan `i` from `half_win = 10`
while `i < n - 10` and fewer than `cap` (512) candidates were accepted;
a sample at or above the threshold that is a window-local maximum is
accepted and the next 10 samples are skipped (`i += half_win` plus the
loop increment).  `fuel` bounds the iteration count; it is instantiated
with `n`, which the loop can never exhaust since `i` strictly increases. -/
def sweepFrom (pts : List SpectrumPoint) (n : Nat) (thr : Int) :
    Nat → Nat → Nat → List Cand
  | 0, _, _ => []
  | fuel + 1, cap, i =>
    if i < n - 10 then
      if cap = 0 then []
      else
        let l := lvlAt pts i
        if l < thr then sweepFrom pts n thr fuel cap (i + 1)
        else if isLocalMax pts i l then
          ⟨i, l⟩ :: sweepFrom pts n thr fuel (cap - 1) (i + 11)
        else sweepFrom pts n thr fuel cap (i + 1)
    else []

/-- Step 2 of `blindscan_detect_peaks`: all sweep candidates for a buffer,
given the already-computed absolute threshold `thr = min_level + threshold_db`. -/
def sweepCands (pts : List SpectrumPoint) (thr : Int) : List Cand :=
  sweepFrom pts pts.length thr pts.length 512 10

/-- Valley level between two candidates (lines 680-684): start from
`min(prev.level, curr.level)` and take the minimum over the samples
strictly between the two indices. -/
def valleyBetween (pts : List SpectrumPoint) (p c : Cand) : Int :=
  (List.range' (p.idx + 1) (c.idx - (p.idx + 1))).foldl
    (fun v j => min v (lvlAt pts j)) (min p.level c.level)

/-- The valley-merge loop of lines 672-699, with the kept list `kept`
stored most-recent-first (the C code mutates `merged[num_merged-1]` in
place; here that element is the head).  A candidate is appended when the
valley between it and the last kept candidate is at least 400 (4 dB)
below the weaker of the two; otherwise the stronger of the two replaces
the last kept candidate. -/
def mergeAux (pts : List SpectrumPoint) : List Cand → List Cand → List Cand
  | kept, [] => kept.reverse
  | [], c :: rest => mergeAux pts [c] rest
  | prev :: ks, c :: rest =>
    if 400 ≤ min prev.level c.level - valleyBetween pts prev c then
      mergeAux pts (c :: prev :: ks) rest
    else if prev.level < c.level then
      mergeAux pts (c :: ks) rest
    else
      mergeAux pts (prev :: ks) rest

/-- Step 3 of `blindscan_detect_peaks`: `merged[0] = candidates[0]` then
the merge loop over the remaining candidates. -/
def mergeCands (pts : List SpectrumPoint) (cands : List Cand) : List Cand :=
  match cands with
  | [] => []
  | c :: rest => mergeAux pts [c] rest

/-- The left -6 dB edge search (lines 714-720): walk `j` from the peak
index down while `j > 0`, stopping at the first sample below `edge`;
if none is found the last examined index (1) remains.  A peak at index 0
would leave `left_idx` at its initialisation value 0. -/
def leftEdgeDown (pts : List SpectrumPoint) (edge : Int) : Nat → Nat
  | 0 => 0
  | j + 1 =>
    if lvlAt pts (j + 1) < edge then j + 1
    else if j = 0 then 1 else leftEdgeDown pts edge j

/-- The right -6 dB edge search (lines 721-727): walk `j` from the peak
index up while `j < n`, stopping at the first sample below `edge`; if
none is found the last examined index (`n - 1`) remains.  `fuel` is
instantiated with `n`, which the walk cannot exhaust. -/
def rightEdgeFrom (pts : List SpectrumPoint) (n : Nat) (edge : Int) :
    Nat → Nat → Nat
  | 0, j => j
  | fuel + 1, j =>
    if j < n then
      if lvlAt pts j < edge then j
      else if j + 1 < n then rightEdgeFrom pts n edge fuel (j + 1)
      else j
    else j

/-- Step 4 of `blindscan_detect_peaks` (lines 706-745) for one merged
candidate: -6 dB bandwidth, centre frequency as the midpoint of the two
edges, symbol rate `bandwidth * 800` with the source's exact clamping
(`< 1000000 → 2000000`, then `> 45000000 → 45000000`), SNR as
`peak_level - min_level`.  The `uint32_t` subtraction, addition and
multiplication are taken modulo `2^32`. -/
def mkOutPeak (pts : List SpectrumPoint) (n : Nat) (min_level : Int)
    (c : Cand) : SpectralPeak :=
  let edge := c.level - 600
  let li := leftEdgeDown pts edge c.idx
  let ri := rightEdgeFrom pts n edge n c.idx
  let bandwidth_khz := (freqAt pts ri + 2 ^ 32 - freqAt pts li) % 2 ^ 32
  let center_freq := ((freqAt pts li + freqAt pts ri) % 2 ^ 32) / 2
  let sr0 := bandwidth_khz * 800 % 2 ^ 32
  let sr1 := if sr0 < 1000000 then 2000000 else sr0
  let sr := if 45000000 < sr1 then 45000000 else sr1
  ⟨center_freq, sr, c.level - min_level, c.level⟩

/-- `blindscan_detect_peaks` (lines 604-753): require at least 100
samples, threshold at `min_level + threshold_db`, sweep, valley-merge,
then emit at most `max_peaks` peaks. -/
def blindscan_detect_peaks (pts : List SpectrumPoint) (max_peaks : Nat)
    (threshold_db : Int) : List SpectralPeak :=
  if pts.length < 100 then []
  else
    let mn := minLevel pts
    ((mergeCands pts (sweepCands pts (mn + threshold_db))).take max_peaks).map
      (mkOutPeak pts pts.length mn)

/-- Absolute difference of two `uint32_t` frequencies, computed with the
branch of lines 1673-1675 (`a > b ? a - b : b - a`). -/
def natDiff (a b : Nat) : Nat :=
  if b < a then a - b else b - a

/-- Inner scan of the deduplication loop (lines 1672-1683): find the first
already-kept candidate within 2000 kHz of `p`; if found, the kept slot is
overwritten with `p` when `p` has the strictly higher level, and the scan
reports a duplicate.  Returns `none` when no kept candidate is that close. -/
def dedupeScan (p : SpectralPeak) : List SpectralPeak → Option (List SpectralPeak)
  | [] => none
  | q :: rest =>
    if natDiff p.frequency q.frequency < 2000 then
      some ((if q.level < p.level then p else q) :: rest)
    else
      (dedupeScan p rest).map (fun r => q :: r)

/-- One iteration of the outer deduplication loop (lines 1670-1686): a
non-duplicate is appended while fewer than 512 candidates are kept. -/
def dedupeStep (acc : List SpectralPeak) (p : SpectralPeak) : List SpectralPeak :=
  match dedupeScan p acc with
  | some acc2 => acc2
  | none => if acc.length < 512 then acc ++ [p] else acc

/-- The hardware-candidate deduplication of `blindscan_worker`
(lines 1664-1693), processing the candidates in array order. -/
def dedupe (peaks : List SpectralPeak) : List SpectralPeak :=
  peaks.foldl dedupeStep []

/-! ### Worker scan plan, progress and peak insertion (`blindscan_worker`) -/

/-- The three values of the session's polarisation selector
(`bs_polarisation`: `DVB_POLARISATION_HORIZONTAL`, `DVB_POLARISATION_VERTICAL`,
or `-1` for both). -/
inductive PolSel where
  | H
  | V
  | Both
  deriving DecidableEq, Repr

/-- A single polarisation, `false` = H, `true` = V (the worker's
`pol_is_v`). -/
abbrev PolIsV := Bool

/-- `BLINDSCAN_LNB_SLOF` (line 84), kHz. -/
def BLINDSCAN_LNB_SLOF : Nat := 11700000

/-- `BLINDSCAN_LNB_LOF_LOW` (line 85), kHz. -/
def BLINDSCAN_LNB_LOF_LOW : Nat := 9750000

/-- `BLINDSCAN_LNB_LOF_HIGH` (line 86), kHz. -/
def BLINDSCAN_LNB_LOF_HIGH : Nat := 10600000

/-- `blindscan_band_for_freq` (lines 377-380). -/
def blindscan_band_for_freq (frequency : Nat) : Nat :=
  if BLINDSCAN_LNB_SLOF ≤ frequency then 1 else 0

/-- The polarisation list of lines 1488-1496: H when the selector is
`Both` or `H`, then V when it is `Both` or `V`. -/
def worker_pol_list (sel : PolSel) : List PolIsV :=
  (if sel = PolSel.Both ∨ sel = PolSel.H then [false] else []) ++
  (if sel = PolSel.Both ∨ sel = PolSel.V then [true] else [])

/-- The band list of lines 1498-1505: low band (0) iff
`start_freq < SLOF`, high band (1) iff `end_freq > SLOF`. -/
def worker_band_list (start_freq end_freq : Nat) : List Nat :=
  (if start_freq < BLINDSCAN_LNB_SLOF then [0] else []) ++
  (if BLINDSCAN_LNB_SLOF < end_freq then [1] else [])

/-- The (polarisation, band) acquisition slots the worker iterates over
(outer loop over polarisations, inner loop over bands, lines 1515-1520). -/
def worker_slots (start_freq end_freq : Nat) (sel : PolSel) :
    List (PolIsV × Nat) :=
  (worker_pol_list sel).flatMap (fun p =>
    (worker_band_list start_freq end_freq).map (fun b => (p, b)))

/-- The slot-entry progress update of line 1523:
`(current_scan * 50) / total_scans`. -/
def slot_progress (current_scan total_scans : Nat) : Nat :=
  current_scan * 50 / total_scans

/-- The per-slice progress update of lines 1579-1580:
`((current_scan - 1) * 50 / total_scans) + ((step + 1) * 50 / total_steps / total_scans)`. -/
def slice_progress (current_scan total_scans step total_steps : Nat) : Nat :=
  (current_scan - 1) * 50 / total_scans + (step + 1) * 50 / total_steps / total_scans

/-- The chronological sequence of values assigned to `bs_progress` by an
uninterrupted worker run: for each slot (numbered from 1) the slot-entry
update, followed in Unicable mode by one update per slice, and finally
the `bs_progress = 100` of line 1764. -/
def worker_progress_trace (total_scans : Nat) (unicable : Bool)
    (total_steps : Nat) : List Nat :=
  ((List.range total_scans).flatMap (fun k =>
    slot_progress (k + 1) total_scans ::
      (if unicable then
        (List.range total_steps).map
          (fun s => slice_progress (k + 1) total_scans s total_steps)
      else []))) ++ [100]

/-- Session state constants (`blindscan_state_t`, lines 163-170). -/
inductive BsState where
  | idle
  | acquiring
  | scanning
  | complete
  | cancelled
  | error
  deriving DecidableEq, Repr

/-- A session candidate peak (`blindscan_peak_t`), restricted to the
fields the worker fills in at insertion time (lines 1728-1736). -/
structure BlindscanPeak where
  bp_frequency : Nat
  bp_symbol_rate : Nat
  bp_level : Int
  bp_snr : Int
  bp_polarisation : PolIsV
  deriving DecidableEq, Repr

/-- `LIST_INSERT_HEAD(&bs->bs_peaks, peak, bp_link)` (line 1749): the new
peak becomes the head of the session's singly-linked peak list. -/
def insert_peak (session_peaks : List BlindscanPeak) (p : BlindscanPeak) :
    List BlindscanPeak :=
  p :: session_peaks

/-- Inserting a chronological sequence of peaks, one
`LIST_INSERT_HEAD` at a time. -/
def insert_all (session_peaks : List BlindscanPeak)
    (ps : List BlindscanPeak) : List BlindscanPeak :=
  ps.foldl insert_peak session_peaks

/-- The order in which `linuxdvb_blindscan_peaks` (lines 2060-2067) emits
the session's peaks: `LIST_FOREACH` walks the list from its head. -/
def linuxdvb_blindscan_peaks_order (session_peaks : List BlindscanPeak) :
    List BlindscanPeak :=
  session_peaks

/-- Worker outcome for a run that is never stopped and whose every slot
acquisition succeeds; `acquire` abstracts the per-slot hardware
acquisition plus peak detection, returning the candidates of a slot in
array order (lines 1717-1751 insert them in that order).  On normal exit
the worker sets `state = COMPLETE` and `progress = 100`
(lines 1763-1764). -/
structure WorkerOutcome where
  state : BsState
  progress : Nat
  peaks : List BlindscanPeak
  deriving Repr

/-- Final session outcome of `blindscan_worker` for an uninterrupted run,
as a function of the slot list and the abstracted acquisition results. -/
def worker_run (slots : List (PolIsV × Nat))
    (acquire : PolIsV × Nat → List BlindscanPeak) : WorkerOutcome :=
  ⟨BsState.complete, 100, insert_all [] (slots.flatMap acquire)⟩

/-! ### Prescan (`linuxdvb_blindscan_prescan`) -/

/-- The symbol-rate estimate lookup of lines 2590-2600: the first session
peak within 2000 kHz of the requested frequency and with the matching
polarisation supplies its estimate (or the 22 Msym/s default if it is
zero); with no match the default 22 Msym/s is used.  `polIsH` is the
`(pol == 'H' || pol == 'h')` test of the source. -/
def prescan_est_symbol_rate (session_peaks : List BlindscanPeak)
    (frequency : Nat) (polIsH : Bool) : Nat :=
  match session_peaks.find? (fun p =>
      natDiff p.bp_frequency frequency < 2000 &&
      (if polIsH then p.bp_polarisation == false else p.bp_polarisation == true)) with
  | some p => if 0 < p.bp_symbol_rate then p.bp_symbol_rate else 22000000
  | none => 22000000

/-- The `DTV_SEARCH_RANGE` computation of line 2691:
`(est_symbol_rate > 8000000) ? est_symbol_rate / 2 : 8000000`. -/
def prescan_search_range (est_symbol_rate : Nat) : Nat :=
  if 8000000 < est_symbol_rate then est_symbol_rate / 2 else 8000000

/-- The stream-id decoding of lines 2811-2814 (`int32_t` value read from
`DTV_STREAM_ID`): raw 511 means no filter (`-1`), raw 256..510 means ISI
`raw - 256`, anything else is kept as-is. -/
def decode_stream_id (raw : Int) : Int :=
  if raw = 511 then -1
  else if 256 ≤ raw ∧ raw < 511 then raw - 256
  else raw

/-- `pls_mode = (matype >> 26) & 0x3` (line 2818); `matype` is the
`uint32_t` property value. -/
def matype_pls_mode (matype : Nat) : Nat :=
  (matype >>> 26) &&& 0x3

/-- `pls_code = (matype >> 8) & 0x3FFFF` (line 2819). -/
def matype_pls_code (matype : Nat) : Nat :=
  (matype >>> 8) &&& 0x3FFFF

/-- `ts_gs = (matype_byte >> 6) & 0x3` with `matype_byte = matype & 0xFF`
(lines 2824-2825). -/
def matype_ts_gs (matype : Nat) : Nat :=
  ((matype &&& 0xFF) >>> 6) &&& 0x3

/-- The GSE classification of line 2829:
`is_gse = (stream_id >= 0 && matype != 0 && ts_gs != 3)`, taking the
already-decoded stream id. -/
def prescan_is_gse (stream_id : Int) (matype : Nat) : Bool :=
  decide (0 ≤ stream_id) && (matype != 0) && (matype_ts_gs matype != 3)

/-! ### Concrete spectrum buffers used by counterexamples and witnesses -/

/-- 100 samples, 1000 kHz apart, flat at 0 except a narrow carrier at
index 50 (level 1000) whose -6 dB edges are its direct neighbours
(level 300): its bandwidth is 2000 kHz, so the estimate is
`2000 * 800 = 1600000` symbols/s. -/
def cexBufNarrow : List SpectrumPoint :=
  (List.range 100).map (fun j =>
    ⟨10700000 + j * 1000, if j = 50 then 1000 else if j = 49 ∨ j = 51 then 300 else 0⟩)

/-- 100 samples, flat at 0 with two carriers of level 1000 at indices 20
and 80: both are kept by the valley merge, and every sample strictly
between them sits 1000 (10 dB) below the weaker peak. -/
def cexBufTwoPeaks : List SpectrumPoint :=
  (List.range 100).map (fun j =>
    ⟨10700000 + j * 1000, if j = 20 ∨ j = 80 then 1000 else 0⟩)

/-- 100 samples whose above-threshold global maximum (level 5000) sits at
index 5, inside the first 10 samples that the sweep never examines. -/
def cexBufEarlyMax : List SpectrumPoint :=
  (List.range 100).map (fun j =>
    ⟨10700000 + j * 1000, if j = 5 then 5000 else 0⟩)

/-- Small buffer for the merge-idempotence witness: two level-1000
carriers at indices 1 and 3 with a level-0 valley at index 2. -/
def bufIdem : List SpectrumPoint :=
  [⟨100, 0⟩, ⟨200, 1000⟩, ⟨300, 0⟩, ⟨400, 1000⟩, ⟨500, 0⟩]

/-- There is a sample strictly between the indices of candidates `p` and
`q` lying at least 400 (4 dB) below both candidate levels — i.e. the two
candidates are separated by a deep valley. -/
def deepBetween (pts : List SpectrumPoint) (p q : Cand) : Prop :=
  ∃ j, p.idx < j ∧ j < q.idx ∧ lvlAt pts j ≤ p.level - 400 ∧
    lvlAt pts j ≤ q.level - 400

/-- Ordered deep separation: `p` does not lie right of `q` and a deep
valley separates them. -/
def sepDeep (pts : List SpectrumPoint) (p q : Cand) : Prop :=
  p.idx ≤ q.idx ∧ deepBetween pts p q

/-! ### Helper lemmas -/

lemma mul50_div_le (k total : Nat) (h : k ≤ total) : k * 50 / total ≤ 50 := by
  rcases Nat.eq_zero_or_pos total with h0 | h0
  · subst h0; simp
  · calc k * 50 / total ≤ total * 50 / total :=
        Nat.div_le_div_right (Nat.mul_le_mul_right 50 h)
    _ = 50 := Nat.mul_div_cancel_left 50 h0

lemma natDiff_comm (a b : Nat) : natDiff a b = natDiff b a := by
  unfold natDiff
  split <;> split <;> omega

/-! ### C1: symbol-rate range of software-detected peaks -/

set_option maxRecDepth 100000 in
/-- C1 counterexample: on a 100-sample buffer with a single narrow
carrier whose -6 dB bandwidth is 2000 kHz, `blindscan_detect_peaks`
returns a peak whose symbol-rate estimate is 1 600 000 symbols/s, below
the claimed 2 000 000 lower bound: the source only raises estimates
below 1 000 000 to 2 000 000 (line 734), so estimates in
[1 000 000, 2 000 000) pass through unclamped. -/
theorem C1_counterexample :
    blindscan_detect_peaks cexBufNarrow 512 1000 =
      [⟨10750000, 1600000, 1000, 1000⟩] ∧
    (1600000 : Nat) < 2000000 := by
  constructor
  · decide
  · decide

/-- C1 (amended): every peak returned by `blindscan_detect_peaks` has a
symbol-rate estimate between 1 000 000 and 45 000 000 symbols/s
inclusive (the estimate is bandwidth × 800; values below 1 000 000 are
replaced by 2 000 000 and values above 45 000 000 are clamped to
45 000 000, so values in [1 000 000, 2 000 000) survive). -/
theorem C1_symbol_rate_bounds (pts : List SpectrumPoint) (mx : Nat)
    (thr : Int) (pk : SpectralPeak)
    (h : pk ∈ blindscan_detect_peaks pts mx thr) :
    1000000 ≤ pk.symbol_rate ∧ pk.symbol_rate ≤ 45000000 := by
  unfold blindscan_detect_peaks at h
  split at h
  · simp at h
  · simp only [List.mem_map] at h
    obtain ⟨c, _, rfl⟩ := h
    unfold mkOutPeak
    simp only
    split_ifs <;> omega

set_option maxRecDepth 100000 in
/-- Witness for C1 (amended) at the narrow-carrier buffer. -/
theorem C1_symbol_rate_bounds_witness :
    1000000 ≤ (SpectralPeak.mk 10750000 1600000 1000 1000).symbol_rate ∧
    (SpectralPeak.mk 10750000 1600000 1000 1000).symbol_rate ≤ 45000000 :=
  C1_symbol_rate_bounds cexBufNarrow 512 1000
    (SpectralPeak.mk 10750000 1600000 1000 1000) (by decide)

/-! ### C2: prescan search range -/

/-- C2 counterexample: a session peak at 11 000 000 kHz (H) with a
10 Msym/s estimate yields `DTV_SEARCH_RANGE = 5 000 000`, which is below
the claimed 8 MHz floor and differs from `max(SR/2, 8 MHz)`: the source
applies the 8 MHz floor only when the estimate itself (not its half) is
at most 8 Msym/s (line 2691). -/
theorem C2_counterexample :
    prescan_search_range (prescan_est_symbol_rate
      [⟨11000000, 10000000, 0, 0, false⟩] 11000000 true) = 5000000 ∧
    (5000000 : Nat) < 8000000 ∧
    prescan_search_range 10000000 ≠ max (10000000 / 2) 8000000 := by
  refine ⟨by decide, by decide, by decide⟩

/-- C2 (amended): the search range is `SR/2` when `SR > 8 Msym/s` and
8 000 000 otherwise; it is therefore never below 4 000 000, and it
coincides with `max(SR/2, 8 MHz)` exactly when `SR ≤ 8 Msym/s` or
`SR ≥ 16 Msym/s` (for `SR` strictly between, it falls below 8 MHz).
With no matching candidate the estimate defaults to 22 000 000. -/
theorem C2_search_range (est frequency : Nat) (polIsH : Bool) :
    4000000 ≤ prescan_search_range est ∧
    (prescan_search_range est = max (est / 2) 8000000 ↔
      est ≤ 8000000 ∨ 16000000 ≤ est) ∧
    prescan_est_symbol_rate [] frequency polIsH = 22000000 ∧
    prescan_search_range 22000000 = 11000000 := by
  refine ⟨?_, ?_, rfl, by decide⟩
  · unfold prescan_search_range
    split_ifs <;> omega
  · unfold prescan_search_range
    rw [Nat.max_def]
    split_ifs <;> constructor <;> intro hh <;> omega

/-! ### C3: progress bounds and monotonicity -/

/-- C3 counterexample: with one scan slot and a two-slice Unicable
acquisition the progress sequence is 50, 25, 50, 100 — the slot-entry
update (line 1523) already reports the end-of-slot value and the first
slice update (lines 1579-1580) then lowers it, so progress is not
monotonically non-decreasing. -/
theorem C3_counterexample :
    worker_progress_trace 1 true 2 = [50, 25, 50, 100] ∧
    ¬ List.Chain' (fun a b => a ≤ b) (worker_progress_trace 1 true 2) := by
  constructor
  · decide
  · intro h
    rw [show worker_progress_trace 1 true 2 = [50, 25, 50, 100] from by decide] at h
    simp [List.chain'_cons] at h

lemma flatMap_single (f : Nat → Nat) (l : List Nat) :
    (l.flatMap (fun k => [f k])) = l.map f := by
  induction l with
  | nil => rfl
  | cons a l ih => simp [List.flatMap_cons, ih]

/-- C3 (amended): every progress value assigned by the worker lies in
[0, 100]; the sequence is monotonically non-decreasing for direct
(non-Unicable) scan plans, but during Unicable slice-by-slice
acquisition the slot-entry update precedes lower slice updates, so there
it can decrease. -/
theorem C3_progress (total_scans total_steps : Nat) (unicable : Bool) :
    (worker_progress_trace total_scans unicable total_steps).all
      (fun x => x ≤ 100) = true ∧
    List.Chain' (fun a b => a ≤ b)
      (worker_progress_trace total_scans false total_steps) := by
  constructor
  · simp only [List.all_eq_true, decide_eq_true_eq, worker_progress_trace,
      List.mem_append, List.mem_flatMap, List.mem_range, List.mem_cons,
      List.mem_singleton]
    intro x hx
    rcases hx with ⟨k, hk, hx⟩ | hx
    · rcases hx with rfl | hx
      · have h1 := mul50_div_le (k + 1) total_scans hk
        unfold slot_progress
        omega
      · rcases unicable with _ | _
        · simp at hx
        · simp only [if_true, List.mem_map, List.mem_range] at hx
          obtain ⟨s, hs, rfl⟩ := hx
          unfold slice_progress
          have h1 : (k + 1 - 1) * 50 / total_scans ≤ 50 :=
            mul50_div_le (k + 1 - 1) total_scans (by omega)
          have h2 : (s + 1) * 50 / total_steps / total_scans ≤ 50 := by
            have h3 := mul50_div_le (s + 1) total_steps hs
            have h4 := Nat.div_le_div_right (c := total_scans) h3
            have h5 := Nat.div_le_self 50 total_scans
            omega
          omega
    · rcases hx with rfl | hx
      · omega
      · simp at hx
  · unfold worker_progress_trace
    simp only [Bool.false_eq_true, if_false]
    rw [flatMap_single (fun k => slot_progress (k + 1) total_scans)]
    apply List.Pairwise.chain'
    rw [List.pairwise_append]
    refine ⟨?_, by simp, ?_⟩
    · rw [List.pairwise_map]
      refine (List.pairwise_lt_range total_scans).imp ?_
      intro a b hab
      exact Nat.div_le_div_right (Nat.mul_le_mul_right 50 (by omega))
    · intro x hx y hy
      simp only [List.mem_singleton] at hy
      subst hy
      simp only [List.mem_map, List.mem_range] at hx
      obtain ⟨k, hk, rfl⟩ := hx
      have h1 := mul50_div_le (k + 1) total_scans hk
      unfold slot_progress
      omega

/-! ### C5: report order of the peaks operation -/

lemma insert_all_eq (ps acc : List BlindscanPeak) :
    insert_all acc ps = ps.reverse ++ acc := by
  induction ps generalizing acc with
  | nil => rfl
  | cons p ps ih =>
    show insert_all (insert_peak acc p) ps = _
    rw [ih]
    simp [insert_peak]

/-- C5 counterexample: after the worker inserts two distinct peaks in
chronological order, the peaks operation reports them in the opposite
order — `LIST_INSERT_HEAD` (line 1749) prepends and `LIST_FOREACH`
(line 2060) walks from the head. -/
theorem C5_counterexample :
    linuxdvb_blindscan_peaks_order (insert_all []
      [⟨1000, 0, 0, 0, false⟩, ⟨2000, 0, 0, 0, false⟩]) ≠
      [⟨1000, 0, 0, 0, false⟩, ⟨2000, 0, 0, 0, false⟩] := by decide

/-- C5 (amended): the peaks operation presents the session's candidates
in the reverse of the order in which the worker inserted them (newest
first). -/
theorem C5_report_reverse (ps : List BlindscanPeak) :
    linuxdvb_blindscan_peaks_order (insert_all [] ps) = ps.reverse := by
  unfold linuxdvb_blindscan_peaks_order
  rw [insert_all_eq]
  simp

/-! ### C6: degenerate frequency range -/

/-- C6 counterexample: a session with `start_freq = end_freq = 10700000`
(below the band-split frequency) still builds one low-band slot per
selected polarisation, because the low band is planned whenever
`start_freq < SLOF` (line 1502) regardless of `end_freq`. -/
theorem C6_counterexample :
    worker_slots 10700000 10700000 PolSel.H = [(false, 0)] ∧
    worker_slots 10700000 10700000 PolSel.H ≠ ([] : List (PolIsV × Nat)) :=
  ⟨by decide, by decide⟩

/-- C6 (amended): with `end_freq = start_freq = f` the worker builds no
(polarisation, band) slots exactly when `f` equals the band-split
frequency 11 700 000 kHz; with no slots the worker finishes immediately
in state complete with progress 100 and zero peaks. -/
theorem C6_equal_freq_no_slots (f : Nat) (sel : PolSel)
    (acquire : PolIsV × Nat → List BlindscanPeak) :
    (worker_slots f f sel = [] ↔ f = BLINDSCAN_LNB_SLOF) ∧
    worker_run [] acquire = ⟨BsState.complete, 100, []⟩ := by
  refine ⟨?_, rfl⟩
  unfold worker_slots worker_band_list worker_pol_list BLINDSCAN_LNB_SLOF
  cases sel <;> simp <;> omega

/-! ### C7: hardware-candidate deduplication -/

lemma dedupeScan_none (p : SpectralPeak) :
    ∀ acc, dedupeScan p acc = none →
      ∀ q ∈ acc, 2000 ≤ natDiff p.frequency q.frequency := by
  intro acc
  induction acc with
  | nil => intro _ q hq; simp at hq
  | cons a acc ih =>
    intro h q hq
    unfold dedupeScan at h
    split at h
    · simp at h
    · rcases List.mem_cons.mp hq with rfl | hq2
      · omega
      · refine ih ?_ q hq2
        rcases heq : dedupeScan p acc with _ | v
        · rfl
        · rw [heq] at h; simp at h

lemma dedupeScan_keep (p : SpectralPeak) :
    ∀ acc, (∀ q ∈ acc, p.level ≤ q.level) →
      dedupeScan p acc = none ∨ dedupeScan p acc = some acc := by
  intro acc
  induction acc with
  | nil => intro _; left; rfl
  | cons a acc ih =>
    intro hlev
    unfold dedupeScan
    split
    · right
      rw [if_neg]
      · have := hlev a (by simp)
        omega
    · rcases ih (fun q hq => hlev q (by simp [hq])) with hnone | hsame
      · left; rw [hnone]; rfl
      · right; rw [hsame]; rfl

lemma dedupe_fold_sep :
    ∀ (ps acc : List SpectralPeak),
      List.Pairwise (fun a b => 2000 ≤ natDiff a.frequency b.frequency) acc →
      (∀ p ∈ ps, ∀ q ∈ acc, p.level ≤ q.level) →
      List.Pairwise (fun a b => b.level ≤ a.level) ps →
      List.Pairwise (fun a b => 2000 ≤ natDiff a.frequency b.frequency)
        (ps.foldl dedupeStep acc) := by
  intro ps
  induction ps with
  | nil => intro acc h _ _; simpa using h
  | cons p ps ih =>
    intro acc hsep hlev hsort
    rw [List.foldl_cons]
    have hkeep := dedupeScan_keep p acc (fun q hq => hlev p (by simp) q hq)
    have hstep : dedupeStep acc p = acc ∨
        (dedupeStep acc p = acc ++ [p] ∧
          ∀ q ∈ acc, 2000 ≤ natDiff p.frequency q.frequency) := by
      rcases hkeep with hnone | hsame
      · have hfar := dedupeScan_none p acc hnone
        by_cases hlen : acc.length < 512
        · right
          refine ⟨?_, hfar⟩
          simp [dedupeStep, hnone, hlen]
        · left
          simp [dedupeStep, hnone, hlen]
      · left
        simp [dedupeStep, hsame]
    rcases hstep with heq | ⟨heq, hfar⟩
    · rw [heq]
      refine ih acc hsep ?_ (List.pairwise_cons.mp hsort).2
      intro p2 hp2 q hq
      exact hlev p2 (by simp [hp2]) q hq
    · rw [heq]
      refine ih (acc ++ [p]) ?_ ?_ (List.pairwise_cons.mp hsort).2
      · rw [List.pairwise_append]
        refine ⟨hsep, by simp, ?_⟩
        intro a ha b hb
        simp only [List.mem_singleton] at hb
        subst hb
        rw [natDiff_comm]
        exact hfar a ha
      · intro p2 hp2 q hq
        rcases List.mem_append.mp hq with hq2 | hq2
        · exact hlev p2 (by simp [hp2]) q hq2
        · simp only [List.mem_singleton] at hq2
          subst hq2
          exact (List.pairwise_cons.mp hsort).1 p2 hp2

/-- C7 counterexample: three candidates at 10 000, 13 500 and 11 900 kHz
with levels 100, 50 and 200.  The third is within 2000 kHz of the first
and stronger, so it overwrites the first kept slot (line 1679) — moving
that slot to 11 900 kHz, now only 1600 kHz from the surviving candidate
at 13 500 kHz.  Two candidates closer than 2 MHz survive deduplication. -/
theorem C7_counterexample :
    dedupe [⟨10000, 0, 0, 100⟩, ⟨13500, 0, 0, 50⟩, ⟨11900, 0, 0, 200⟩] =
      [⟨11900, 0, 0, 200⟩, ⟨13500, 0, 0, 50⟩] ∧
    natDiff 11900 13500 < 2000 := ⟨by decide, by decide⟩

/-- C7 (amended): an incoming candidate within 2000 kHz of an
already-kept candidate is merged into that slot, the stronger of the two
surviving.  When no incoming duplicate is stronger than its kept partner
— in particular whenever the candidates are processed in non-increasing
level order — no two surviving candidates are closer than 2000 kHz; in
general a replacement can move a kept slot to within 2000 kHz of another
kept candidate. -/
theorem C7_dedupe_pairwise_sorted (peaks : List SpectralPeak)
    (hs : List.Pairwise (fun a b => b.level ≤ a.level) peaks) :
    List.Pairwise (fun a b => 2000 ≤ natDiff a.frequency b.frequency)
      (dedupe peaks) := by
  unfold dedupe
  exact dedupe_fold_sep peaks [] (by simp) (by simp) hs

/-- Witness for C7 (amended) on a concrete level-sorted candidate list. -/
theorem C7_dedupe_pairwise_sorted_witness :
    List.Pairwise (fun a b => 2000 ≤ natDiff a.frequency b.frequency)
      (dedupe [⟨10000, 0, 0, 200⟩, ⟨15000, 0, 0, 100⟩]) :=
  C7_dedupe_pairwise_sorted [⟨10000, 0, 0, 200⟩, ⟨15000, 0, 0, 100⟩] (by decide)

/-! ### C8: GSE classification and MATYPE field extraction -/

lemma nat_and_3 (x : Nat) : x &&& 3 = x % 4 := by
  have h : (3 : Nat) = 2 ^ 2 - 1 := rfl
  rw [h, Nat.and_pow_two_sub_one_eq_mod]

lemma nat_and_ff (x : Nat) : x &&& 255 = x % 256 := by
  have h : (255 : Nat) = 2 ^ 8 - 1 := rfl
  rw [h, Nat.and_pow_two_sub_one_eq_mod]

lemma nat_and_3ffff (x : Nat) : x &&& 0x3FFFF = x % 2 ^ 18 := by
  have h : (0x3FFFF : Nat) = 2 ^ 18 - 1 := rfl
  rw [h, Nat.and_pow_two_sub_one_eq_mod]

/-- C8: after a locked prescan, `is_gse` is true iff the decoded
stream id is non-negative, the 32-bit MATYPE is nonzero, and bits 7-6 of
the low MATYPE byte are not both set (`ts_gs ≠ 0b11`); `pls_mode` is
MATYPE bits 26-27, `pls_code` is MATYPE bits 8-25, and MATYPE 0 is never
classified as GSE. -/
theorem C8_gse_classification (raw : Int) (matype : Nat) :
    (prescan_is_gse (decode_stream_id raw) matype = true ↔
      0 ≤ decode_stream_id raw ∧ matype ≠ 0 ∧
        ¬(matype.testBit 7 = true ∧ matype.testBit 6 = true)) ∧
    matype_pls_mode matype = matype / 2 ^ 26 % 4 ∧
    matype_pls_code matype = matype / 2 ^ 8 % 2 ^ 18 ∧
    prescan_is_gse (decode_stream_id raw) 0 = false := by
  have hts : (matype_ts_gs matype ≠ 3) ↔
      ¬(matype.testBit 7 = true ∧ matype.testBit 6 = true) := by
    unfold matype_ts_gs
    rw [nat_and_ff, Nat.shiftRight_eq_div_pow, nat_and_3,
      Nat.testBit_to_div_mod, Nat.testBit_to_div_mod]
    simp only [decide_eq_true_eq]
    omega
  refine ⟨?_, ?_, ?_, ?_⟩
  · unfold prescan_is_gse
    simp only [Bool.and_eq_true, decide_eq_true_eq, bne_iff_ne, ne_eq]
    constructor
    · rintro ⟨⟨h1, h2⟩, h3⟩
      exact ⟨h1, h2, hts.mp h3⟩
    · rintro ⟨h1, h2, h3⟩
      exact ⟨⟨h1, h2⟩, hts.mpr h3⟩
  · unfold matype_pls_mode
    rw [Nat.shiftRight_eq_div_pow, nat_and_3]
  · unfold matype_pls_code
    rw [Nat.shiftRight_eq_div_pow, nat_and_3ffff]
  · unfold prescan_is_gse
    simp

/-! ### C10: sweep window bounds -/

lemma sweepFrom_mem_bounds (pts : List SpectrumPoint) (n : Nat) (thr : Int) :
    ∀ fuel cap i c, c ∈ sweepFrom pts n thr fuel cap i →
      i ≤ c.idx ∧ c.idx + 11 ≤ n := by
  intro fuel
  induction fuel with
  | zero => intro cap i c h; simp [sweepFrom] at h
  | succ fuel ih =>
    intro cap i c h
    unfold sweepFrom at h
    split at h
    · split at h
      · simp at h
      · dsimp only at h
        split at h
        · have := ih _ _ _ h; omega
        · split at h
          · rcases List.mem_cons.mp h with rfl | h2
            · simp only []
              omega
            · have := ih _ _ _ h2; omega
          · have := ih _ _ _ h; omega
    · simp at h

/-- C10: the local-maximum sweep only examines indices `i` with
`10 ≤ i ≤ n - 11`; a sample inside the first 10 or last 10 positions of
the buffer is never emitted as a sweep candidate, whatever its level. -/
theorem C10_sweep_window (pts : List SpectrumPoint) (thr : Int) (i : Nat)
    (l : Int) (h : i < 10 ∨ pts.length < i + 11) :
    Cand.mk i l ∉ sweepCands pts thr := by
  intro hmem
  have hb := sweepFrom_mem_bounds pts pts.length thr pts.length 512 10
    ⟨i, l⟩ hmem
  simp only [] at hb
  omega

/-- Witness for C10: the global maximum of `cexBufEarlyMax` (level 5000,
far above the threshold) sits at index 5 and is not a candidate. -/
theorem C10_sweep_window_witness :
    Cand.mk 5 5000 ∉ sweepCands cexBufEarlyMax 1000 :=
  C10_sweep_window cexBufEarlyMax 1000 5 5000 (Or.inl (by decide))

/-! ### C4 and C9: valley-merge invariants -/

lemma foldl_min_le_init (pts : List SpectrumPoint) :
    ∀ (l : List Nat) (a : Int),
      (l.foldl (fun v j => min v (lvlAt pts j)) a) ≤ a := by
  intro l
  induction l with
  | nil => intro a; simp
  | cons x l ih =>
    intro a
    rw [List.foldl_cons]
    exact le_trans (ih (min a (lvlAt pts x))) (min_le_left _ _)

lemma foldl_min_le_mem (pts : List SpectrumPoint) :
    ∀ (l : List Nat) (a : Int) (j : Nat), j ∈ l →
      (l.foldl (fun v j => min v (lvlAt pts j)) a) ≤ lvlAt pts j := by
  intro l
  induction l with
  | nil => intro a j hj; simp at hj
  | cons x l ih =>
    intro a j hj
    rw [List.foldl_cons]
    rcases List.mem_cons.mp hj with rfl | hj
    · exact le_trans (foldl_min_le_init pts l _) (min_le_right _ _)
    · exact ih _ j hj

lemma foldl_min_cases (pts : List SpectrumPoint) :
    ∀ (l : List Nat) (a : Int),
      (l.foldl (fun v j => min v (lvlAt pts j)) a) = a ∨
      ∃ j ∈ l, (l.foldl (fun v j => min v (lvlAt pts j)) a) = lvlAt pts j := by
  intro l
  induction l with
  | nil => intro a; left; rfl
  | cons x l ih =>
    intro a
    rw [List.foldl_cons]
    rcases ih (min a (lvlAt pts x)) with h | ⟨j, hj, h⟩
    · rw [h]
      rcases min_choice a (lvlAt pts x) with h2 | h2
      · left; exact h2
      · right; exact ⟨x, by simp, h2⟩
    · right; exact ⟨j, by simp [hj], h⟩

lemma valley_to_deepBetween (pts : List SpectrumPoint) (p c : Cand)
    (h : 400 ≤ min p.level c.level - valleyBetween pts p c) :
    deepBetween pts p c := by
  unfold valleyBetween at h
  rcases foldl_min_cases pts (List.range' (p.idx + 1) (c.idx - (p.idx + 1)))
      (min p.level c.level) with he | ⟨j, hj, he⟩
  · rw [he] at h; omega
  · rw [he] at h
    rw [List.mem_range'_1] at hj
    have h1 := min_le_left p.level c.level
    have h2 := min_le_right p.level c.level
    exact ⟨j, by omega, by omega, by omega, by omega⟩

lemma deepBetween_to_valley (pts : List SpectrumPoint) (p c : Cand)
    (h : deepBetween pts p c) :
    400 ≤ min p.level c.level - valleyBetween pts p c := by
  obtain ⟨j, hj1, hj2, hl1, hl2⟩ := h
  unfold valleyBetween
  have hmem : j ∈ List.range' (p.idx + 1) (c.idx - (p.idx + 1)) := by
    rw [List.mem_range'_1]; omega
  have hle := foldl_min_le_mem pts _ (min p.level c.level) j hmem
  rcases min_choice p.level c.level with hm | hm <;> omega

lemma sepDeep_trans (pts : List SpectrumPoint) : Transitive (sepDeep pts) := by
  rintro a b c ⟨hab, j1, ha1, hb1, hl1a, hl1b⟩ ⟨hbc, j2, hb2, hc2, hl2b, hl2c⟩
  refine ⟨le_trans hab hbc, ?_⟩
  rcases le_total a.level c.level with h | h
  · exact ⟨j1, ha1, by omega, hl1a, by omega⟩
  · exact ⟨j2, by omega, hc2, by omega, hl2c⟩

lemma mergeAux_chains (pts : List SpectrumPoint) :
    ∀ (rest : List Cand) (prev : Cand) (ks : List Cand),
      List.Chain' (fun a b => sepDeep pts b a) (prev :: ks) →
      List.Chain' (fun a b => b.idx ≤ a.idx) (prev :: ks) →
      (∀ r ∈ rest, prev.idx ≤ r.idx) →
      List.Pairwise (fun a b => a.idx ≤ b.idx) rest →
      List.Chain' (sepDeep pts) (mergeAux pts (prev :: ks) rest) := by
  intro rest
  induction rest with
  | nil =>
    intro prev ks hflip hidx hr hp
    show List.Chain' (sepDeep pts) (prev :: ks).reverse
    rw [List.chain'_reverse]
    exact hflip
  | cons c rest ih =>
    intro prev ks hflip hidx hr hp
    have hprevc : prev.idx ≤ c.idx := hr c (by simp)
    have hrest : ∀ r ∈ rest, c.idx ≤ r.idx :=
      fun r hrr => (List.pairwise_cons.mp hp).1 r hrr
    have hptail := (List.pairwise_cons.mp hp).2
    show List.Chain' (sepDeep pts) (mergeAux pts (prev :: ks) (c :: rest))
    unfold mergeAux
    split
    case isTrue hdeep =>
      apply ih c (prev :: ks)
      · rw [List.chain'_cons]
        exact ⟨⟨hprevc, valley_to_deepBetween pts prev c hdeep⟩, hflip⟩
      · rw [List.chain'_cons]
        exact ⟨hprevc, hidx⟩
      · exact hrest
      · exact hptail
    case isFalse hnodeep =>
      split
      case isTrue hstr =>
        apply ih c ks
        · cases ks with
          | nil => simp
          | cons h2 ks2 =>
            rw [List.chain'_cons]
            refine ⟨?_, (List.chain'_cons.mp hflip).2⟩
            obtain ⟨hidx2, j, hj1, hj2, hl1, hl2⟩ := (List.chain'_cons.mp hflip).1
            exact ⟨by omega, j, hj1, by omega, hl1, by omega⟩
        · cases ks with
          | nil => simp
          | cons h2 ks2 =>
            rw [List.chain'_cons]
            refine ⟨?_, (List.chain'_cons.mp hidx).2⟩
            have := (List.chain'_cons.mp hidx).1
            omega
        · exact hrest
        · exact hptail
      case isFalse hw =>
        apply ih prev ks hflip hidx
        · intro r hrr
          exact le_trans hprevc (hrest r hrr)
        · exact hptail

lemma mergeAux_ne_nil (pts : List SpectrumPoint) :
    ∀ (rest : List Cand) (prev : Cand) (ks : List Cand),
      mergeAux pts (prev :: ks) rest ≠ [] := by
  intro rest
  induction rest with
  | nil => intro prev ks; simp [mergeAux]
  | cons c rest ih =>
    intro prev ks
    unfold mergeAux
    split
    · exact ih c (prev :: ks)
    · split
      · exact ih c ks
      · exact ih prev ks

lemma mergeAux_fixed (pts : List SpectrumPoint) :
    ∀ (rest : List Cand) (prev : Cand) (ks : List Cand),
      List.Chain' (fun a b =>
        400 ≤ min a.level b.level - valleyBetween pts a b) (prev :: rest) →
      mergeAux pts (prev :: ks) rest = (prev :: ks).reverse ++ rest := by
  intro rest
  induction rest with
  | nil => intro prev ks _; simp [mergeAux]
  | cons c rest ih =>
    intro prev ks hchain
    obtain ⟨hpc, htail⟩ := List.chain'_cons.mp hchain
    show mergeAux pts (prev :: ks) (c :: rest) = _
    unfold mergeAux
    split
    case isTrue h2 =>
      rw [ih c (prev :: ks) htail]
      simp
    case isFalse h2 => exact absurd hpc h2

lemma sweepFrom_pairwise (pts : List SpectrumPoint) (n : Nat) (thr : Int) :
    ∀ fuel cap i,
      List.Pairwise (fun a b => a.idx ≤ b.idx)
        (sweepFrom pts n thr fuel cap i) := by
  intro fuel
  induction fuel with
  | zero => intro cap i; simp [sweepFrom]
  | succ fuel ih =>
    intro cap i
    unfold sweepFrom
    split
    · split
      · simp
      · dsimp only
        split
        · exact ih cap (i + 1)
        · split
          · rw [List.pairwise_cons]
            refine ⟨?_, ih _ _⟩
            intro b hb
            have := sweepFrom_mem_bounds pts n thr fuel (cap - 1) (i + 11) b hb
            simp only []
            omega
          · exact ih cap (i + 1)
    · simp

set_option maxRecDepth 100000 in
/-- C4 counterexample: on `cexBufTwoPeaks` the valley merge keeps the
level-1000 candidates at indices 20 and 80, and the sample at index 50
between them has level 0, strictly below `min(1000, 1000) - 400 = 600` —
contradicting the claim that every intervening sample stays within 4 dB
of the weaker peak.  (The merge keeps a pair separate precisely
*because* the valley between them drops at least 4 dB.) -/
theorem C4_counterexample :
    mergeCands cexBufTwoPeaks
        (sweepCands cexBufTwoPeaks (minLevel cexBufTwoPeaks + 1000)) =
      [⟨20, 1000⟩, ⟨80, 1000⟩] ∧
    (20 : Nat) < 50 ∧ (50 : Nat) < 80 ∧
    lvlAt cexBufTwoPeaks 50 < min 1000 1000 - 400 := by
  refine ⟨by decide, by decide, by decide, by decide⟩

/-- C4 (amended): for any two kept peaks of the valley-merge output over
a sweep candidate list, at least one sample strictly between them lies
at least 400 (4 dB) below the weaker of the two peak levels — every pair
of surviving peaks is separated by a deep valley (the claim as written
asserted the opposite: that no intervening sample drops 4 dB below). -/
theorem C4_deep_valleys (pts : List SpectrumPoint) (thr : Int) :
    List.Pairwise (sepDeep pts) (mergeCands pts (sweepCands pts thr)) := by
  haveI : IsTrans Cand (sepDeep pts) :=
    ⟨fun a b c hab hbc => sepDeep_trans pts hab hbc⟩
  rcases hc : sweepCands pts thr with _ | ⟨c, rest⟩
  · simp [mergeCands]
  · have hp := sweepFrom_pairwise pts pts.length thr pts.length 512 10
    rw [show sweepFrom pts pts.length thr pts.length 512 10 =
      sweepCands pts thr from rfl, hc] at hp
    show List.Pairwise (sepDeep pts) (mergeAux pts [c] rest)
    apply List.chain'_iff_pairwise.mp
    apply mergeAux_chains pts rest c []
    · simp
    · simp
    · intro r hrr
      exact (List.pairwise_cons.mp hp).1 r hrr
    · exact (List.pairwise_cons.mp hp).2

/-- C9: the valley-based merging step is idempotent on every left-to-right
ordered candidate list over a fixed spectrum buffer: every consecutive
pair of its output is separated by a ≥ 4 dB valley, so a second merge
pass appends every candidate unchanged. -/
theorem C9_merge_idempotent (pts : List SpectrumPoint) (cands : List Cand)
    (hs : List.Pairwise (fun a b => a.idx ≤ b.idx) cands) :
    mergeCands pts (mergeCands pts cands) = mergeCands pts cands := by
  rcases cands with _ | ⟨c, rest⟩
  · rfl
  · have hchain : List.Chain' (sepDeep pts) (mergeAux pts [c] rest) := by
      apply mergeAux_chains pts rest c []
      · simp
      · simp
      · intro r hrr
        exact (List.pairwise_cons.mp hs).1 r hrr
      · exact (List.pairwise_cons.mp hs).2
    show mergeCands pts (mergeAux pts [c] rest) = mergeAux pts [c] rest
    rcases ho : mergeAux pts [c] rest with _ | ⟨o, os⟩
    · exact absurd ho (mergeAux_ne_nil pts rest c [])
    · rw [ho] at hchain
      have hDP : List.Chain' (fun a b =>
          400 ≤ min a.level b.level - valleyBetween pts a b) (o :: os) :=
        hchain.imp (fun a b hab => deepBetween_to_valley pts a b hab.2)
      show mergeAux pts [o] os = o :: os
      rw [mergeAux_fixed pts os o [] hDP]
      rfl

/-- Witness for C9 on a concrete buffer and ordered candidate pair. -/
theorem C9_merge_idempotent_witness :
    mergeCands bufIdem (mergeCands bufIdem [⟨1, 1000⟩, ⟨3, 1000⟩]) =
      mergeCands bufIdem [⟨1, 1000⟩, ⟨3, 1000⟩] :=
  C9_merge_idempotent bufIdem [⟨1, 1000⟩, ⟨3, 1000⟩] (by decide)

end Blindscan
